import Mathlib

set_option maxHeartbeats 1000000

/-!
Shallow embedding of `keyv-cache-proxy` (src/index.ts, v0.1.2): the
`KeyvCacheProxy` interception layer (key derivation, `onCache`/`onFetch`
hook resolution, store get/set with TTL, recursive descent into nested
objects) and the `globalThisCached` process-wide memoization utility.
-/

/-- JavaScript runtime values as observed by the proxy: primitives
(`undefined`, `null`, booleans, numbers, strings), arrays and plain
objects (ordered field lists). -/
inductive JVal where
  | undefined
  | null
  | bool (b : Bool)
  | num (n : Int)
  | str (s : String)
  | arr (elems : List JVal)
  | obj (fields : List (String × JVal))

/-- Escape one character for a JSON string literal (quote and backslash
only; enough for the values this development manipulates). -/
def jsonEscapeChar (c : Char) : String :=
  if c = '"' then "\\\"" else if c = '\\' then "\\\\" else String.singleton c

/-- A JSON string literal: quoted, characters escaped. -/
def jsonEscape (s : String) : String :=
  "\"" ++ String.join (s.toList.map jsonEscapeChar) ++ "\""

mutual
/-- Model of `JSON.stringify` on one value; `none` models the call
returning the JavaScript value `undefined` (as it does on `undefined`). -/
def stringifyVal : JVal → Option String
  | .undefined => none
  | .null => some "null"
  | .bool b => some (if b then "true" else "false")
  | .num n => some (toString n)
  | .str s => some (jsonEscape s)
  | .arr xs => some ("[" ++ String.intercalate "," (stringifyArr xs) ++ "]")
  | .obj fs => some ("\x7b" ++ String.intercalate "," (stringifyObj fs) ++ "\x7d")

/-- Serializations of the elements of an array; `undefined` elements
encode as `null`, following `JSON.stringify` semantics. -/
def stringifyArr : List JVal → List String
  | [] => []
  | x :: xs => ((stringifyVal x).getD "null") :: stringifyArr xs

/-- Serialized properties of an object; properties whose value
serializes to nothing (`undefined`) are omitted. -/
def stringifyObj : List (String × JVal) → List String
  | [] => []
  | (k, v) :: fs =>
    match stringifyVal v with
    | none => stringifyObj fs
    | some sv => (jsonEscape k ++ ":" ++ sv) :: stringifyObj fs
end

/-- Whether a value is the JavaScript `undefined` sentinel
(the code's `=== undefined` checks). -/
def JVal.isUndef : JVal → Bool
  | .undefined => true
  | _ => false

/-- Whether a value is JavaScript `null` (the code's `=== null` check). -/
def JVal.isNull : JVal → Bool
  | .null => true
  | _ => false

/-- State of the Keyv store: each key is either absent or holds a value
together with an optional absolute expiry instant (milliseconds). -/
def Store : Type := String → Option (JVal × Option Nat)

/-- The store with no entries. -/
def emptyStore : Store := fun _ => none

/-- Model of `store.get(key)` at time `t`: `undefined` when the key is
absent or the entry has expired, the stored value otherwise. -/
def storeGet (t : Nat) (s : Store) (k : String) : JVal :=
  match s k with
  | none => .undefined
  | some (v, none) => v
  | some (v, some e) => if t < e then v else .undefined

/-- Model of `store.set(key, value, ttl)` at time `t`: records the value
under the key, with expiry `t + ttl` when a ttl is given. -/
def storeSet (t : Nat) (k : String) (v : JVal) (ttl : Option Nat) (s : Store) : Store :=
  fun k2 => if k2 = k then some (v, ttl.map (fun d => t + d)) else s k2

/-- Configuration object passed to `KeyvCacheProxy` (the `options`
argument): the shared store reference (of an abstract reference type
`σ`), the default ttl in milliseconds, the two optional hooks, and the
key prefix `pre` (default the empty string). Hooks take the key and a
value and either return a value or throw (`Except.error`). -/
structure Options (σ : Type) where
  store : σ
  ttl : Option Nat
  onCache : Option (String → JVal → Except JVal JVal)
  onFetch : Option (String → JVal → Except JVal JVal)
  pre : String

/-- The derived configuration for the nested wrapper returned on access
to an object-valued property `prop`: same store, ttl and hooks, with the
prefix extended to `pre ++ prop ++ "."`. -/
def childOptions {σ : Type} (opts : Options σ) (prop : String) : Options σ :=
  ⟨opts.store, opts.ttl, opts.onCache, opts.onFetch, opts.pre ++ prop ++ "."⟩

/-- The configuration obtained by descending through a whole path of
nested object properties. -/
def descend {σ : Type} (opts : Options σ) (path : List String) : Options σ :=
  path.foldl childOptions opts

/-- Cache-key derivation, from the source line
`const key = prefix + String(prop) + ":" + JSON.stringify(args)`
(template literal): the prefix, the method name, a colon, then the JSON
serialization of the argument array. -/
def deriveKey (pre prop : String) (args : List JVal) : String :=
  pre ++ prop ++ ":" ++ (stringifyVal (.arr args)).getD "undefined"

/-- Observable events of one intercepted call, in order of occurrence:
the store lookup, an `onCache` hook invocation, the underlying method
invocation, an `onFetch` hook invocation, and a store write. -/
inductive Event where
  | getE (k : String)
  | cacheHookE (k : String) (v : JVal)
  | methodE (args : List JVal)
  | fetchHookE (k : String) (v : JVal)
  | setE (k : String) (v : JVal) (ttl : Option Nat)

/-- Outcome of one intercepted call: the value returned to (or error
thrown at) the caller, the resulting store state, and the trace of
events the call performed. -/
structure CallResult where
  result : Except JVal JVal
  store : Store
  trace : List Event

/-- The cache-miss tail of an intercepted call (source lines after the
`cached !== undefined` early return): invoke the original method, let
the `onFetch` hook optionally replace the result (`undefined` keeps
it), then `store.set(key, result, ttl)` and return the result. Any
failure of the method or the hook aborts before the store write. -/
def finishMiss {σ : Type} (opts : Options σ) (f : List JVal → Except JVal JVal)
    (key : String) (args : List JVal) (t : Nat) (s : Store) (tr : List Event) : CallResult :=
  match f args with
  | .error e => ⟨.error e, s, tr ++ [.methodE args]⟩
  | .ok fresh =>
    match opts.onFetch with
    | none =>
      ⟨.ok fresh, storeSet t key fresh opts.ttl s,
        tr ++ [.methodE args, .setE key fresh opts.ttl]⟩
    | some hk =>
      match hk key fresh with
      | .error e => ⟨.error e, s, tr ++ [.methodE args, .fetchHookE key fresh]⟩
      | .ok m =>
        let result := if m.isUndef then fresh else m
        ⟨.ok result, storeSet t key result opts.ttl s,
          tr ++ [.methodE args, .fetchHookE key fresh, .setE key result opts.ttl]⟩

/-- One intercepted method call at time `t` against store state `s`,
mirroring the wrapped async closure of the source: derive the key, do
`store.get`, resolve the `onCache` hook (`null` outcome forces a miss,
any other non-`undefined` outcome is returned immediately, `undefined`
keeps the looked-up value), return a present value as a hit, otherwise
run the miss tail `finishMiss`. -/
def interceptCall {σ : Type} (opts : Options σ) (f : List JVal → Except JVal JVal)
    (prop : String) (args : List JVal) (t : Nat) (s : Store) : CallResult :=
  let key := deriveKey opts.pre prop args
  let cached := storeGet t s key
  match opts.onCache with
  | none =>
    if cached.isUndef then
      finishMiss opts f key args t s [.getE key]
    else
      ⟨.ok cached, s, [.getE key]⟩
  | some hk =>
    let tr := [Event.getE key, Event.cacheHookE key cached]
    match hk key cached with
    | .error e => ⟨.error e, s, tr⟩
    | .ok m =>
      if m.isNull then
        finishMiss opts f key args t s tr
      else if !m.isUndef then
        ⟨.ok m, s, tr⟩
      else if !cached.isUndef then
        ⟨.ok cached, s, tr⟩
      else
        finishMiss opts f key args t s tr

/-- The shape of a wrapped object as the proxy's `get` trap sees each
property: a primitive value (returned unchanged), a function (wrapped
into a caching async method), or a nested object (wrapped recursively). -/
inductive ObjTree where
  | prim (v : JVal)
  | method (f : List JVal → Except JVal JVal)
  | node (children : List (String × ObjTree))

/-- What a property access on the wrapper yields: an intercepted caching
method, a nested wrapper with a derived configuration, or a raw value. -/
inductive Access (σ : Type) where
  | intercepted (opts : Options σ) (prop : String) (f : List JVal → Except JVal JVal)
  | nested (opts : Options σ) (children : List (String × ObjTree))
  | raw (v : JVal)

/-- The proxy `get` trap, from the source: a function property becomes
an intercepted caching method; a non-null object property becomes a
nested wrapper with the prefix extended by the property name and a dot;
anything else is returned unchanged (a missing property reads as
`undefined`). -/
def getTrap {σ : Type} (opts : Options σ) (children : List (String × ObjTree))
    (prop : String) : Access σ :=
  match children.lookup prop with
  | some (.method f) => .intercepted opts prop f
  | some (.node cs) => .nested (childOptions opts prop) cs
  | some (.prim v) => .raw v
  | none => .raw .undefined

/-- The `globalThisCached` utility: look the name up in the process
-global map; on a hit return the stored value, on a miss run the
producer, store and return its result. The third component records
whether the producer was invoked on this call. -/
def globalThisCached {α : Type} (name : String) (compute : Unit → α)
    (g : List (String × α)) : α × List (String × α) × Bool :=
  match g.lookup name with
  | some v => (v, g, false)
  | none =>
    let result := compute ()
    (result, (name, result) :: g, true)

/-- A sequence of `globalThisCached` calls sharing one name, threading
the global map; returns the final map and how many of the calls invoked
their producer. -/
def callSeq {α : Type} (name : String) (cs : List (Unit → α))
    (g : List (String × α)) : List (String × α) × Nat :=
  match cs with
  | [] => (g, 0)
  | c :: rest =>
    let r := globalThisCached name c g
    let rr := callSeq name rest r.2.1
    (rr.1, (if r.2.2 then 1 else 0) + rr.2)

/-- A no-hook, no-ttl configuration with empty prefix (store reference
abstracted to `Unit`). -/
def opts0 : Options Unit := ⟨(), none, none, none, ""⟩

/-- An underlying method that resolves to `undefined`. -/
def f0 : List JVal → Except JVal JVal := fun _ => .ok .undefined

/-- An underlying method that resolves to the string `"fresh"`. -/
def fM : List JVal → Except JVal JVal := fun _ => .ok (.str "fresh")

/-- An underlying method that resolves to the number 10 (the spec's
`getValue(5)` example result). -/
def f10 : List JVal → Except JVal JVal := fun _ => .ok (.num 10)

/-- The JavaScript object literal `\x7bskip: true\x7d`. -/
def skipObj : JVal := .obj [("skip", .bool true)]

/-- A configuration whose `onCache` hook returns the object
`\x7bskip: true\x7d` on every invocation. -/
def optsSkip : Options Unit := ⟨(), none, some (fun _ _ => .ok skipObj), none, ""⟩

/-- A configuration whose `onCache` hook returns `null` on every
invocation (the code's forced-miss outcome). -/
def optsNull : Options Unit := ⟨(), none, some (fun _ _ => .ok .null), none, ""⟩

/-- A configuration whose `onCache` hook throws the string `"boom"`. -/
def optsThrow : Options Unit := ⟨(), none, some (fun _ _ => .error (.str "boom")), none, ""⟩

/-- A configuration whose `onFetch` hook returns the object
`\x7bskip: true\x7d` on every invocation. -/
def optsF : Options Unit := ⟨(), none, none, some (fun _ _ => .ok skipObj), ""⟩

/-- A store state holding the string `"stored"` (no expiry) under the
key `"m:[]"`. -/
def sSt : Store := storeSet 0 "m:[]" (.str "stored") none emptyStore

/-- A configuration with prefix `"app:"` over a store referenced by the
identifier 7, used for the nested-wrapper example. -/
def optsApp : Options Nat := ⟨7, none, none, none, "app:"⟩

/-- The object `\x7bapi: \x7bgetData: () => "data"\x7d\x7d` from the
spec's nesting example, as a property tree. -/
def treeEx : List (String × ObjTree) :=
  [("api", ObjTree.node [("getData", ObjTree.method (fun _ => .ok (.str "data")))])]

/-! Shared lemmas about the embedded operations. -/

/-- A value whose `isUndef` test is false is not `undefined`. -/
theorem isUndef_false_ne {v : JVal} (h : v.isUndef = false) : v ≠ JVal.undefined := by
  intro hv
  subst hv
  simp [JVal.isUndef] at h

/-- `stringifyArr` is the elementwise serialization with `undefined`
encoded as `null`. -/
theorem stringifyArr_eq_map (args : List JVal) :
    stringifyArr args = args.map (fun a => (stringifyVal a).getD "null") := by
  induction args with
  | nil => rfl
  | cons a rest ih => simp [stringifyArr, ih]

/-- Reading a key back right after `storeSet` yields the written entry. -/
theorem storeSet_self (t : Nat) (k : String) (v : JVal) (ttl : Option Nat) (s : Store) :
    storeSet t k v ttl s k = some (v, ttl.map (fun d => t + d)) := by
  simp [storeSet]

/-- If a lookup returns a non-`undefined` value, the store holds an
entry with exactly that value under the key. -/
theorem storeGet_eq_some {t : Nat} {s : Store} {k : String} {v : JVal}
    (h : storeGet t s k = v) (hv : v.isUndef = false) :
    ∃ eo, s k = some (v, eo) := by
  unfold storeGet at h
  rcases hsk : s k with _ | ⟨w, _ | e⟩
  · rw [hsk] at h
    simp at h
    exact absurd h.symm (isUndef_false_ne hv)
  · rw [hsk] at h
    simp at h
    exact ⟨none, by rw [h]⟩
  · rw [hsk] at h
    simp at h
    by_cases ht : t < e
    · rw [if_pos ht] at h
      exact ⟨some e, by rw [h]⟩
    · rw [if_neg ht] at h
      exact absurd h.symm (isUndef_false_ne hv)

/-- A stored `undefined` value is indistinguishable from an absent
entry: the lookup reports `undefined` at every time. -/
theorem storeGet_of_undefined {s : Store} {k : String} {eo : Option Nat}
    (h : s k = some (JVal.undefined, eo)) (t : Nat) : storeGet t s k = JVal.undefined := by
  unfold storeGet
  rw [h]
  cases eo with
  | none => rfl
  | some e => by_cases ht : t < e <;> simp [ht]

/-- The miss tail always records the underlying method invocation. -/
theorem methodE_mem_finishMiss {σ : Type} (opts : Options σ)
    (f : List JVal → Except JVal JVal) (key : String) (args : List JVal)
    (t : Nat) (s : Store) (tr : List Event) :
    Event.methodE args ∈ (finishMiss opts f key args t s tr).trace := by
  unfold finishMiss
  split
  · simp
  · split
    · simp
    · split
      · simp
      · simp

/-- The miss tail appends the method invocation and (only) fetch-side
events to the incoming trace: the appended part contains no `get`
event and no `onCache` hook event. -/
theorem finishMiss_trace_shape {σ : Type} (opts : Options σ)
    (f : List JVal → Except JVal JVal) (key : String) (args : List JVal)
    (t : Nat) (s : Store) (tr : List Event) :
    ∃ extra, (finishMiss opts f key args t s tr).trace = tr ++ Event.methodE args :: extra
      ∧ (∀ k v, Event.cacheHookE k v ∉ (Event.methodE args :: extra))
      ∧ (∀ k, Event.getE k ∉ (Event.methodE args :: extra)) := by
  unfold finishMiss
  split
  · exact ⟨[], by simp⟩
  · rename_i fresh heq
    split
    · exact ⟨[Event.setE key fresh opts.ttl], by simp⟩
    · split
      · exact ⟨[Event.fetchHookE key fresh], by simp⟩
      · rename_i m heq2
        exact ⟨[Event.fetchHookE key fresh,
          Event.setE key (if m.isUndef then fresh else m) opts.ttl], by simp⟩

/-- The `undefined` value is `undefined`. -/
@[simp] theorem isUndef_undefined : JVal.undefined.isUndef = true := rfl

/-- The `null` value is not `undefined`. -/
@[simp] theorem isUndef_null : JVal.null.isUndef = false := rfl

/-- The `null` value is `null`. -/
@[simp] theorem isNull_null : JVal.null.isNull = true := rfl

/-- The `undefined` value is not `null`. -/
@[simp] theorem isNull_undefined : JVal.undefined.isNull = false := rfl

/-- Miss tail when the underlying method throws: the failure is the
call's result, the store is untouched. -/
theorem finishMiss_method_error {σ : Type} {opts : Options σ}
    {f : List JVal → Except JVal JVal} {args : List JVal} {e : JVal}
    (key : String) (t : Nat) (s : Store) (tr : List Event)
    (hf : f args = .error e) :
    finishMiss opts f key args t s tr = ⟨.error e, s, tr ++ [.methodE args]⟩ := by
  simp [finishMiss, hf]

/-- Miss tail with no `onFetch` hook: the fresh result is stored under
the key with the configured ttl and returned. -/
theorem finishMiss_ok_noHook {σ : Type} {opts : Options σ}
    {f : List JVal → Except JVal JVal} {args : List JVal} {fresh : JVal}
    (key : String) (t : Nat) (s : Store) (tr : List Event)
    (hof : opts.onFetch = none) (hf : f args = .ok fresh) :
    finishMiss opts f key args t s tr
      = ⟨.ok fresh, storeSet t key fresh opts.ttl s,
         tr ++ [.methodE args, .setE key fresh opts.ttl]⟩ := by
  simp [finishMiss, hf, hof]

/-- Miss tail when the `onFetch` hook throws: the failure is the call's
result and the store is untouched (no partial write). -/
theorem finishMiss_hook_error {σ : Type} {opts : Options σ}
    {f : List JVal → Except JVal JVal} {args : List JVal} {fresh e : JVal}
    {hk : String → JVal → Except JVal JVal}
    (key : String) (t : Nat) (s : Store) (tr : List Event)
    (hof : opts.onFetch = some hk) (hf : f args = .ok fresh)
    (hh : hk key fresh = .error e) :
    finishMiss opts f key args t s tr
      = ⟨.error e, s, tr ++ [.methodE args, .fetchHookE key fresh]⟩ := by
  simp [finishMiss, hf, hof, hh]

/-- Miss tail when the `onFetch` hook returns: an `undefined` outcome
keeps the fresh result, any other outcome replaces it; either way the
resulting value is stored with the configured ttl and returned. -/
theorem finishMiss_hook_ok {σ : Type} {opts : Options σ}
    {f : List JVal → Except JVal JVal} {args : List JVal} {fresh m : JVal}
    {hk : String → JVal → Except JVal JVal}
    (key : String) (t : Nat) (s : Store) (tr : List Event)
    (hof : opts.onFetch = some hk) (hf : f args = .ok fresh)
    (hh : hk key fresh = .ok m) :
    finishMiss opts f key args t s tr
      = ⟨.ok (if m.isUndef then fresh else m),
         storeSet t key (if m.isUndef then fresh else m) opts.ttl s,
         tr ++ [.methodE args, .fetchHookE key fresh,
                .setE key (if m.isUndef then fresh else m) opts.ttl]⟩ := by
  simp [finishMiss, hf, hof, hh]

/-- With no `onCache` hook and a present, unexpired entry, the call is a
pure cache hit: the stored value is returned, the only event is the
lookup, and the store is unchanged. -/
theorem interceptCall_noHook_hit {σ : Type} {opts : Options σ}
    (f : List JVal → Except JVal JVal) (prop : String) (args : List JVal)
    (t : Nat) (s : Store)
    (hoc : opts.onCache = none)
    (hcu : (storeGet t s (deriveKey opts.pre prop args)).isUndef = false) :
    interceptCall opts f prop args t s
      = ⟨.ok (storeGet t s (deriveKey opts.pre prop args)), s,
         [.getE (deriveKey opts.pre prop args)]⟩ := by
  simp [interceptCall, hoc, hcu]

/-- With no `onCache` hook and an absent (or expired) entry, the call
runs the miss tail after the lookup. -/
theorem interceptCall_noHook_miss {σ : Type} {opts : Options σ}
    (f : List JVal → Except JVal JVal) (prop : String) (args : List JVal)
    (t : Nat) (s : Store)
    (hoc : opts.onCache = none)
    (hcu : (storeGet t s (deriveKey opts.pre prop args)).isUndef = true) :
    interceptCall opts f prop args t s
      = finishMiss opts f (deriveKey opts.pre prop args) args t s
          [.getE (deriveKey opts.pre prop args)] := by
  simp [interceptCall, hoc, hcu]

/-- A throwing `onCache` hook fails the call right after the lookup,
leaving the store unchanged. -/
theorem interceptCall_hook_error {σ : Type} {opts : Options σ}
    {hk : String → JVal → Except JVal JVal} {e : JVal}
    (f : List JVal → Except JVal JVal) (prop : String) (args : List JVal)
    (t : Nat) (s : Store)
    (hoc : opts.onCache = some hk)
    (hh : hk (deriveKey opts.pre prop args)
            (storeGet t s (deriveKey opts.pre prop args)) = .error e) :
    interceptCall opts f prop args t s
      = ⟨.error e, s,
         [.getE (deriveKey opts.pre prop args),
          .cacheHookE (deriveKey opts.pre prop args)
            (storeGet t s (deriveKey opts.pre prop args))]⟩ := by
  simp [interceptCall, hoc, hh]

/-- An `onCache` hook returning `null` forces a miss: the call runs the
miss tail regardless of the looked-up value. -/
theorem interceptCall_hook_null {σ : Type} {opts : Options σ}
    {hk : String → JVal → Except JVal JVal}
    (f : List JVal → Except JVal JVal) (prop : String) (args : List JVal)
    (t : Nat) (s : Store)
    (hoc : opts.onCache = some hk)
    (hh : hk (deriveKey opts.pre prop args)
            (storeGet t s (deriveKey opts.pre prop args)) = .ok .null) :
    interceptCall opts f prop args t s
      = finishMiss opts f (deriveKey opts.pre prop args) args t s
          [.getE (deriveKey opts.pre prop args),
           .cacheHookE (deriveKey opts.pre prop args)
             (storeGet t s (deriveKey opts.pre prop args))] := by
  simp [interceptCall, hoc, hh, JVal.isNull]

/-- An `onCache` hook returning a non-`null`, non-`undefined` value
short-circuits the call: that value is returned immediately, the method
is not invoked, and the store is unchanged. -/
theorem interceptCall_hook_val {σ : Type} {opts : Options σ}
    {hk : String → JVal → Except JVal JVal} {m : JVal}
    (f : List JVal → Except JVal JVal) (prop : String) (args : List JVal)
    (t : Nat) (s : Store)
    (hoc : opts.onCache = some hk)
    (hh : hk (deriveKey opts.pre prop args)
            (storeGet t s (deriveKey opts.pre prop args)) = .ok m)
    (hmn : m.isNull = false) (hmu : m.isUndef = false) :
    interceptCall opts f prop args t s
      = ⟨.ok m, s,
         [.getE (deriveKey opts.pre prop args),
          .cacheHookE (deriveKey opts.pre prop args)
            (storeGet t s (deriveKey opts.pre prop args))]⟩ := by
  simp [interceptCall, hoc, hh, hmn, hmu]

/-- An `onCache` hook returning `undefined` passes a present looked-up
value through unchanged: the call is a hit on the original value. -/
theorem interceptCall_hook_undef_hit {σ : Type} {opts : Options σ}
    {hk : String → JVal → Except JVal JVal}
    (f : List JVal → Except JVal JVal) (prop : String) (args : List JVal)
    (t : Nat) (s : Store)
    (hoc : opts.onCache = some hk)
    (hh : hk (deriveKey opts.pre prop args)
            (storeGet t s (deriveKey opts.pre prop args)) = .ok .undefined)
    (hcu : (storeGet t s (deriveKey opts.pre prop args)).isUndef = false) :
    interceptCall opts f prop args t s
      = ⟨.ok (storeGet t s (deriveKey opts.pre prop args)), s,
         [.getE (deriveKey opts.pre prop args),
          .cacheHookE (deriveKey opts.pre prop args)
            (storeGet t s (deriveKey opts.pre prop args))]⟩ := by
  simp [interceptCall, hoc, hh, hcu]

/-- An `onCache` hook returning `undefined` on an absent looked-up value
leaves the call a miss: it runs the miss tail. -/
theorem interceptCall_hook_undef_miss {σ : Type} {opts : Options σ}
    {hk : String → JVal → Except JVal JVal}
    (f : List JVal → Except JVal JVal) (prop : String) (args : List JVal)
    (t : Nat) (s : Store)
    (hoc : opts.onCache = some hk)
    (hh : hk (deriveKey opts.pre prop args)
            (storeGet t s (deriveKey opts.pre prop args)) = .ok .undefined)
    (hcu : (storeGet t s (deriveKey opts.pre prop args)).isUndef = true) :
    interceptCall opts f prop args t s
      = finishMiss opts f (deriveKey opts.pre prop args) args t s
          [.getE (deriveKey opts.pre prop args),
           .cacheHookE (deriveKey opts.pre prop args)
             (storeGet t s (deriveKey opts.pre prop args))] := by
  simp [interceptCall, hoc, hh, hcu]

/-! Claims. -/

/-- Claim C1, counterexample: the key derived for the spec's example —
wrapping with prefix `"app:"` and calling `api.getData()` — is
`"app:api.getData:[]"` (colon and bracketed argument array), not the
claimed `"app:api.getData()"`. -/
theorem key_shape_counterexample :
    deriveKey (childOptions optsApp "api").pre "getData" [] = "app:api.getData:[]"
      ∧ "app:api.getData:[]" ≠ "app:api.getData()" :=
  ⟨rfl, by decide⟩

/-- Claim C1 (amended): for every prefix, method name and argument
list, the derived cache key equals the prefix, then the method name,
then a colon, then the JSON serialization of the argument array (an
opening bracket, the comma-joined JSON serializations of the arguments,
a closing bracket); in particular the spec's example derives the key
`"app:api.getData:[]"`. -/
theorem deriveKey_shape (pre prop : String) (args : List JVal) :
    deriveKey pre prop args
      = pre ++ prop ++ ":" ++ ("[" ++ String.intercalate ","
          (args.map (fun a => (stringifyVal a).getD "null")) ++ "]")
    ∧ deriveKey (childOptions optsApp "api").pre "getData" [] = "app:api.getData:[]" := by
  constructor
  · simp [deriveKey, stringifyVal, stringifyArr_eq_map]
  · rfl

/-- Claim C4, counterexample: with a stored value present and an
`onCache` hook returning the object `\x7bskip: true\x7d`, the call does
not proceed as a cache miss: it returns that object immediately and the
underlying method is never invoked (the trace holds only the lookup and
the hook invocation). -/
theorem onCache_skip_outcome_counterexample :
    (interceptCall optsSkip fM "m" [] 0 sSt).result = .ok skipObj
      ∧ (interceptCall optsSkip fM "m" [] 0 sSt).trace
          = [.getE "m:[]", .cacheHookE "m:[]" (.str "stored")] :=
  ⟨rfl, rfl⟩

/-- Claim C4 (amended): the `onCache` hook's outcome is resolved as: a
`null` outcome forces the call to proceed as a cache miss (the
underlying method is invoked) even when a stored value is present; any
non-`null`, non-`undefined` outcome `V` makes the call return `V`
immediately, invoking neither the underlying method nor a store write;
an `undefined` outcome passes the original cached-or-missing value
through unchanged (hit on the stored value, miss otherwise). -/
theorem onCache_resolution {σ : Type} (opts : Options σ)
    (f : List JVal → Except JVal JVal) (prop : String) (args : List JVal)
    (t : Nat) (s : Store) (hk : String → JVal → Except JVal JVal)
    (hoc : opts.onCache = some hk) :
    (hk (deriveKey opts.pre prop args) (storeGet t s (deriveKey opts.pre prop args)) = .ok .null →
        Event.methodE args ∈ (interceptCall opts f prop args t s).trace)
    ∧ (∀ m, hk (deriveKey opts.pre prop args) (storeGet t s (deriveKey opts.pre prop args)) = .ok m →
        m.isNull = false → m.isUndef = false →
        interceptCall opts f prop args t s
          = ⟨.ok m, s, [.getE (deriveKey opts.pre prop args),
              .cacheHookE (deriveKey opts.pre prop args)
                (storeGet t s (deriveKey opts.pre prop args))]⟩)
    ∧ (hk (deriveKey opts.pre prop args) (storeGet t s (deriveKey opts.pre prop args)) = .ok .undefined →
        (storeGet t s (deriveKey opts.pre prop args)).isUndef = false →
        interceptCall opts f prop args t s
          = ⟨.ok (storeGet t s (deriveKey opts.pre prop args)), s,
             [.getE (deriveKey opts.pre prop args),
              .cacheHookE (deriveKey opts.pre prop args)
                (storeGet t s (deriveKey opts.pre prop args))]⟩)
    ∧ (hk (deriveKey opts.pre prop args) (storeGet t s (deriveKey opts.pre prop args)) = .ok .undefined →
        (storeGet t s (deriveKey opts.pre prop args)).isUndef = true →
        Event.methodE args ∈ (interceptCall opts f prop args t s).trace) := by
  refine ⟨fun hh => ?_, fun m hh hmn hmu => ?_, fun hh hcu => ?_, fun hh hcu => ?_⟩
  · rw [interceptCall_hook_null f prop args t s hoc hh]
    exact methodE_mem_finishMiss opts f (deriveKey opts.pre prop args) args t s _
  · exact interceptCall_hook_val f prop args t s hoc hh hmn hmu
  · exact interceptCall_hook_undef_hit f prop args t s hoc hh hcu
  · rw [interceptCall_hook_undef_miss f prop args t s hoc hh hcu]
    exact methodE_mem_finishMiss opts f (deriveKey opts.pre prop args) args t s _

/-- Claim C4 witness: the resolution theorem applied at concrete
inputs — a hook returning `\x7bskip: true\x7d` over a populated store
short-circuits, and a hook returning `null` forces the method to run. -/
theorem onCache_resolution_witness :
    interceptCall optsSkip fM "m" [] 0 sSt
        = ⟨.ok skipObj, sSt, [.getE "m:[]", .cacheHookE "m:[]" (.str "stored")]⟩
      ∧ Event.methodE [] ∈ (interceptCall optsNull fM "m" [] 0 sSt).trace := by
  constructor
  · exact (onCache_resolution optsSkip fM "m" [] 0 sSt
      (fun _ _ => .ok skipObj) rfl).2.1 skipObj rfl rfl rfl
  · exact (onCache_resolution optsNull fM "m" [] 0 sSt
      (fun _ _ => .ok .null) rfl).1 rfl

/-- Every intercepted call either records an invocation of the
underlying method in its trace, or records no `onFetch` hook invocation
at all: the fetch hook can only fire on the fresh-computation path. -/
theorem interceptCall_trace_cases {σ : Type} (opts : Options σ)
    (f : List JVal → Except JVal JVal) (prop : String) (args : List JVal)
    (t : Nat) (s : Store) :
    Event.methodE args ∈ (interceptCall opts f prop args t s).trace
    ∨ (∀ k v, Event.fetchHookE k v ∉ (interceptCall opts f prop args t s).trace) := by
  unfold interceptCall
  dsimp only
  split
  · split
    · exact Or.inl (methodE_mem_finishMiss opts f _ args t s _)
    · exact Or.inr (by simp)
  · split
    · exact Or.inr (by simp)
    · split
      · exact Or.inl (methodE_mem_finishMiss opts f _ args t s _)
      · split
        · exact Or.inr (by simp)
        · split
          · exact Or.inr (by simp)
          · exact Or.inl (methodE_mem_finishMiss opts f _ args t s _)

/-- Claim C3, counterexample: with an `onFetch` hook returning the
object `\x7bskip: true\x7d` on a cache miss, the call does not return
the fresh result and does write the store: it returns the skip object
itself, which is also what the store write records. -/
theorem onFetch_skip_outcome_counterexample :
    (interceptCall optsF fM "m" [] 0 emptyStore).result = .ok skipObj
      ∧ (interceptCall optsF fM "m" [] 0 emptyStore).trace
          = [.getE "m:[]", .methodE [], .fetchHookE "m:[]" (.str "fresh"),
             .setE "m:[]" skipObj none] :=
  ⟨rfl, rfl⟩

/-- Claim C3 (amended): the `onFetch` hook is invoked only on calls
that reach a fresh computation (cache misses); an `undefined` outcome
stores and returns the original fresh result; any non-`undefined`
outcome `V` replaces the result, so `V` is stored and returned; in
every non-failing miss the (possibly replaced) result is stored with
the configured default ttl — there is no skip outcome and no per-call
ttl override. -/
theorem onFetch_resolution {σ : Type} (opts : Options σ)
    (f : List JVal → Except JVal JVal) (prop : String) (args : List JVal)
    (t : Nat) (s : Store) (hk : String → JVal → Except JVal JVal)
    (hof : opts.onFetch = some hk) :
    (∀ k v, Event.fetchHookE k v ∈ (interceptCall opts f prop args t s).trace →
        Event.methodE args ∈ (interceptCall opts f prop args t s).trace)
    ∧ (∀ fresh, opts.onCache = none →
        (storeGet t s (deriveKey opts.pre prop args)).isUndef = true →
        f args = .ok fresh →
        hk (deriveKey opts.pre prop args) fresh = .ok .undefined →
        interceptCall opts f prop args t s
          = ⟨.ok fresh, storeSet t (deriveKey opts.pre prop args) fresh opts.ttl s,
             [.getE (deriveKey opts.pre prop args), .methodE args,
              .fetchHookE (deriveKey opts.pre prop args) fresh,
              .setE (deriveKey opts.pre prop args) fresh opts.ttl]⟩)
    ∧ (∀ fresh m, opts.onCache = none →
        (storeGet t s (deriveKey opts.pre prop args)).isUndef = true →
        f args = .ok fresh →
        hk (deriveKey opts.pre prop args) fresh = .ok m → m.isUndef = false →
        interceptCall opts f prop args t s
          = ⟨.ok m, storeSet t (deriveKey opts.pre prop args) m opts.ttl s,
             [.getE (deriveKey opts.pre prop args), .methodE args,
              .fetchHookE (deriveKey opts.pre prop args) fresh,
              .setE (deriveKey opts.pre prop args) m opts.ttl]⟩) := by
  refine ⟨fun k v hmem => ?_, fun fresh hc hcu hf hh => ?_, fun fresh m hc hcu hf hh hmu => ?_⟩
  · rcases interceptCall_trace_cases opts f prop args t s with h | h
    · exact h
    · exact absurd hmem (h k v)
  · rw [interceptCall_noHook_miss f prop args t s hc hcu,
      finishMiss_hook_ok (deriveKey opts.pre prop args) t s _ hof hf hh]
    simp
  · rw [interceptCall_noHook_miss f prop args t s hc hcu,
      finishMiss_hook_ok (deriveKey opts.pre prop args) t s _ hof hf hh]
    simp [hmu]

/-- Claim C3 witness: the resolution theorem applied at a concrete miss
whose hook replaces the fresh `"fresh"` result with `\x7bskip: true\x7d`;
the replacement is stored and returned. -/
theorem onFetch_resolution_witness :
    interceptCall optsF fM "m" [] 0 emptyStore
      = ⟨.ok skipObj, storeSet 0 "m:[]" skipObj none emptyStore,
         [.getE "m:[]", .methodE [], .fetchHookE "m:[]" (.str "fresh"),
          .setE "m:[]" skipObj none]⟩ :=
  (onFetch_resolution optsF fM "m" [] 0 emptyStore
    (fun _ _ => .ok skipObj) rfl).2.2 (.str "fresh") skipObj rfl rfl rfl rfl rfl

/-- Claim C7: on every hit path — a present looked-up value passed
through (with or without an `onCache` hook), or a value supplied by the
hook — the value is returned to the caller, the store state is the
incoming one unchanged, and the trace holds no store write. -/
theorem hit_no_store_write {σ : Type} (opts : Options σ)
    (f : List JVal → Except JVal JVal) (prop : String) (args : List JVal)
    (t : Nat) (s : Store) :
    (opts.onCache = none →
        (storeGet t s (deriveKey opts.pre prop args)).isUndef = false →
        interceptCall opts f prop args t s
          = ⟨.ok (storeGet t s (deriveKey opts.pre prop args)), s,
             [.getE (deriveKey opts.pre prop args)]⟩)
    ∧ (∀ hk m, opts.onCache = some hk →
        hk (deriveKey opts.pre prop args) (storeGet t s (deriveKey opts.pre prop args)) = .ok m →
        m.isNull = false → m.isUndef = false →
        interceptCall opts f prop args t s
          = ⟨.ok m, s, [.getE (deriveKey opts.pre prop args),
              .cacheHookE (deriveKey opts.pre prop args)
                (storeGet t s (deriveKey opts.pre prop args))]⟩)
    ∧ (∀ hk, opts.onCache = some hk →
        hk (deriveKey opts.pre prop args) (storeGet t s (deriveKey opts.pre prop args)) = .ok .undefined →
        (storeGet t s (deriveKey opts.pre prop args)).isUndef = false →
        interceptCall opts f prop args t s
          = ⟨.ok (storeGet t s (deriveKey opts.pre prop args)), s,
             [.getE (deriveKey opts.pre prop args),
              .cacheHookE (deriveKey opts.pre prop args)
                (storeGet t s (deriveKey opts.pre prop args))]⟩) := by
  refine ⟨fun hc hcu => ?_, fun hk m hoc hh hmn hmu => ?_, fun hk hoc hh hcu => ?_⟩
  · exact interceptCall_noHook_hit f prop args t s hc hcu
  · exact interceptCall_hook_val f prop args t s hoc hh hmn hmu
  · exact interceptCall_hook_undef_hit f prop args t s hoc hh hcu

/-- Claim C7 witness: the hit theorem applied at a concrete populated
store with no hooks — the stored `"stored"` value is returned, the
store is unchanged, and the only event is the lookup. -/
theorem hit_no_store_write_witness :
    interceptCall opts0 fM "m" [] 0 sSt
      = ⟨.ok (.str "stored"), sSt, [.getE "m:[]"]⟩ :=
  (hit_no_store_write opts0 fM "m" [] 0 sSt).1 rfl rfl

/-- A value whose `isNull` test is true is `null`. -/
theorem isNull_eq {v : JVal} (h : v.isNull = true) : v = JVal.null := by
  cases v <;> simp [JVal.isNull] at h ⊢

/-- A value whose `isUndef` test is true is `undefined`. -/
theorem isUndef_eq {v : JVal} (h : v.isUndef = true) : v = JVal.undefined := by
  cases v <;> simp [JVal.isUndef] at h ⊢

/-- A failing miss tail is one of the two abort shapes: the method threw
(no hook event), or the fetch hook threw on some fresh value; in both
the store is the incoming one and nothing was written. -/
theorem finishMiss_error_cases {σ : Type} {opts : Options σ}
    {f : List JVal → Except JVal JVal} {args : List JVal} {e : JVal}
    (key : String) (t : Nat) (s : Store) (tr : List Event)
    (herr : (finishMiss opts f key args t s tr).result = .error e) :
    finishMiss opts f key args t s tr = ⟨.error e, s, tr ++ [.methodE args]⟩
    ∨ ∃ fresh, finishMiss opts f key args t s tr
        = ⟨.error e, s, tr ++ [.methodE args, .fetchHookE key fresh]⟩ := by
  unfold finishMiss at herr ⊢
  split at herr
  · simp at herr
    subst herr
    exact Or.inl rfl
  · rename_i fresh hf
    split at herr
    · simp at herr
    · split at herr
      · simp at herr
        subst herr
        exact Or.inr ⟨fresh, rfl⟩
      · simp at herr

/-- Claim C5: for every call through the wrapper on which an `onCache`
hook is configured, the hook is invoked exactly once, immediately after
the store lookup and before the hit/miss decision is finalized,
receiving the looked-up value — the `undefined` absent marker on a
miss, the stored value on a hit. -/
theorem onCache_invoked_once_after_lookup {σ : Type} (opts : Options σ)
    (f : List JVal → Except JVal JVal) (prop : String) (args : List JVal)
    (t : Nat) (s : Store) (hk : String → JVal → Except JVal JVal)
    (hoc : opts.onCache = some hk) :
    ∃ rest, (interceptCall opts f prop args t s).trace
        = Event.getE (deriveKey opts.pre prop args)
          :: Event.cacheHookE (deriveKey opts.pre prop args)
               (storeGet t s (deriveKey opts.pre prop args)) :: rest
      ∧ ∀ k v, Event.cacheHookE k v ∉ rest := by
  cases hres : hk (deriveKey opts.pre prop args) (storeGet t s (deriveKey opts.pre prop args)) with
  | error e =>
    rw [interceptCall_hook_error f prop args t s hoc hres]
    exact ⟨[], rfl, by simp⟩
  | ok m =>
    cases hmn : m.isNull with
    | true =>
      rw [isNull_eq hmn] at hres
      rw [interceptCall_hook_null f prop args t s hoc hres]
      rcases finishMiss_trace_shape opts f (deriveKey opts.pre prop args) args t s _
        with ⟨extra, htr, hnc, _⟩
      refine ⟨Event.methodE args :: extra, ?_, fun k v => hnc k v⟩
      rw [htr]
      rfl
    | false =>
      cases hmu : m.isUndef with
      | false =>
        rw [interceptCall_hook_val f prop args t s hoc hres hmn hmu]
        exact ⟨[], rfl, by simp⟩
      | true =>
        rw [isUndef_eq hmu] at hres
        cases hcu : (storeGet t s (deriveKey opts.pre prop args)).isUndef with
        | false =>
          rw [interceptCall_hook_undef_hit f prop args t s hoc hres hcu]
          exact ⟨[], rfl, by simp⟩
        | true =>
          rw [interceptCall_hook_undef_miss f prop args t s hoc hres hcu]
          rcases finishMiss_trace_shape opts f (deriveKey opts.pre prop args) args t s _
            with ⟨extra, htr, hnc, _⟩
          refine ⟨Event.methodE args :: extra, ?_, fun k v => hnc k v⟩
          rw [htr]
          rfl

/-- Claim C5 witness: the exactly-once theorem applied to a concrete
hooked configuration over a populated store. -/
theorem onCache_invoked_once_witness :
    ∃ rest, (interceptCall optsSkip fM "m" [] 0 sSt).trace
        = Event.getE (deriveKey optsSkip.pre "m" [])
          :: Event.cacheHookE (deriveKey optsSkip.pre "m" [])
               (storeGet 0 sSt (deriveKey optsSkip.pre "m" [])) :: rest
      ∧ ∀ k v, Event.cacheHookE k v ∉ rest :=
  onCache_invoked_once_after_lookup optsSkip fM "m" [] 0 sSt
    (fun _ _ => .ok skipObj) rfl

/-- In a miss tail whose incoming trace holds no fetch-hook events, a
fetch-hook event for `(k, w)` implies the underlying method resolved to
exactly `w` and `k` is the tail's key. -/
theorem fetchHookE_mem_finishMiss_inv {σ : Type} {opts : Options σ}
    {f : List JVal → Except JVal JVal} {args : List JVal} {k : String} {w : JVal}
    (key : String) (t : Nat) (s : Store) (tr : List Event)
    (htr : ∀ k2 v2, Event.fetchHookE k2 v2 ∉ tr)
    (hmem : Event.fetchHookE k w ∈ (finishMiss opts f key args t s tr).trace) :
    f args = .ok w ∧ k = key := by
  unfold finishMiss at hmem
  split at hmem
  · simp [List.mem_append] at hmem
    exact absurd hmem (htr k w)
  · rename_i fresh hf
    split at hmem
    · simp [List.mem_append] at hmem
      exact absurd hmem (htr k w)
    · split at hmem
      · simp [List.mem_append] at hmem
        rcases hmem with hmem | hmem
        · exact absurd hmem (htr k w)
        · rcases hmem with ⟨hk1, hk2⟩
          subst hk1
          subst hk2
          exact ⟨hf, rfl⟩
      · simp [List.mem_append] at hmem
        rcases hmem with hmem | hmem
        · exact absurd hmem (htr k w)
        · rcases hmem with ⟨hk1, hk2⟩
          subst hk1
          subst hk2
          exact ⟨hf, rfl⟩

/-- A fetch-hook event in a call's trace pins the call down: the method
resolved to the event's value, the event's key is the derived key, and
the whole call is its miss tail for some initial trace. -/
theorem fetchHook_mem_structure {σ : Type} (opts : Options σ)
    (f : List JVal → Except JVal JVal) (prop : String) (args : List JVal)
    (t : Nat) (s : Store) (k : String) (w : JVal)
    (hmem : Event.fetchHookE k w ∈ (interceptCall opts f prop args t s).trace) :
    f args = .ok w ∧ k = deriveKey opts.pre prop args
      ∧ ∃ tr0, interceptCall opts f prop args t s
          = finishMiss opts f (deriveKey opts.pre prop args) args t s tr0 := by
  cases hoc : opts.onCache with
  | none =>
    cases hcu : (storeGet t s (deriveKey opts.pre prop args)).isUndef with
    | false =>
      rw [interceptCall_noHook_hit f prop args t s hoc hcu] at hmem
      simp at hmem
    | true =>
      rw [interceptCall_noHook_miss f prop args t s hoc hcu] at hmem ⊢
      rcases fetchHookE_mem_finishMiss_inv (deriveKey opts.pre prop args) t s _
        (by simp) hmem with ⟨h1, h2⟩
      exact ⟨h1, h2, _, rfl⟩
  | some hk2 =>
    cases hres : hk2 (deriveKey opts.pre prop args)
        (storeGet t s (deriveKey opts.pre prop args)) with
    | error e2 =>
      rw [interceptCall_hook_error f prop args t s hoc hres] at hmem
      simp at hmem
    | ok m =>
      cases hmn : m.isNull with
      | true =>
        rw [isNull_eq hmn] at hres
        rw [interceptCall_hook_null f prop args t s hoc hres] at hmem ⊢
        rcases fetchHookE_mem_finishMiss_inv (deriveKey opts.pre prop args) t s _
          (by simp) hmem with ⟨h1, h2⟩
        exact ⟨h1, h2, _, rfl⟩
      | false =>
        cases hmu : m.isUndef with
        | false =>
          rw [interceptCall_hook_val f prop args t s hoc hres hmn hmu] at hmem
          simp at hmem
        | true =>
          rw [isUndef_eq hmu] at hres
          cases hcu : (storeGet t s (deriveKey opts.pre prop args)).isUndef with
          | false =>
            rw [interceptCall_hook_undef_hit f prop args t s hoc hres hcu] at hmem
            simp at hmem
          | true =>
            rw [interceptCall_hook_undef_miss f prop args t s hoc hres hcu] at hmem ⊢
            rcases fetchHookE_mem_finishMiss_inv (deriveKey opts.pre prop args) t s _
              (by simp) hmem with ⟨h1, h2⟩
            exact ⟨h1, h2, _, rfl⟩

/-- A method event in a call's trace pins the call down to its miss
tail for some initial trace. -/
theorem methodE_mem_structure {σ : Type} (opts : Options σ)
    (f : List JVal → Except JVal JVal) (prop : String) (args : List JVal)
    (t : Nat) (s : Store)
    (hmem : Event.methodE args ∈ (interceptCall opts f prop args t s).trace) :
    ∃ tr0, interceptCall opts f prop args t s
        = finishMiss opts f (deriveKey opts.pre prop args) args t s tr0 := by
  cases hoc : opts.onCache with
  | none =>
    cases hcu : (storeGet t s (deriveKey opts.pre prop args)).isUndef with
    | false =>
      rw [interceptCall_noHook_hit f prop args t s hoc hcu] at hmem
      simp at hmem
    | true =>
      rw [interceptCall_noHook_miss f prop args t s hoc hcu]
      exact ⟨_, rfl⟩
  | some hk2 =>
    cases hres : hk2 (deriveKey opts.pre prop args)
        (storeGet t s (deriveKey opts.pre prop args)) with
    | error e2 =>
      rw [interceptCall_hook_error f prop args t s hoc hres] at hmem
      simp at hmem
    | ok m =>
      cases hmn : m.isNull with
      | true =>
        rw [isNull_eq hmn] at hres
        rw [interceptCall_hook_null f prop args t s hoc hres]
        exact ⟨_, rfl⟩
      | false =>
        cases hmu : m.isUndef with
        | false =>
          rw [interceptCall_hook_val f prop args t s hoc hres hmn hmu] at hmem
          simp at hmem
        | true =>
          rw [isUndef_eq hmu] at hres
          cases hcu : (storeGet t s (deriveKey opts.pre prop args)).isUndef with
          | false =>
            rw [interceptCall_hook_undef_hit f prop args t s hoc hres hcu] at hmem
            simp at hmem
          | true =>
            rw [interceptCall_hook_undef_miss f prop args t s hoc hres hcu]
            exact ⟨_, rfl⟩

/-- Claim C6: failures propagate verbatim and never write the store —
whenever a call fails, the store state is unchanged and no write event
occurred; a throwing `onCache` hook fails the call with its error; a
throwing underlying method (when invoked) fails the call with its
error; a throwing `onFetch` hook (when invoked) fails the call with its
error. -/
theorem error_propagation_no_write {σ : Type} (opts : Options σ)
    (f : List JVal → Except JVal JVal) (prop : String) (args : List JVal)
    (t : Nat) (s : Store) :
    (∀ e, (interceptCall opts f prop args t s).result = .error e →
        (interceptCall opts f prop args t s).store = s
        ∧ ∀ k v ttlx, Event.setE k v ttlx ∉ (interceptCall opts f prop args t s).trace)
    ∧ (∀ hk e, opts.onCache = some hk →
        hk (deriveKey opts.pre prop args) (storeGet t s (deriveKey opts.pre prop args)) = .error e →
        (interceptCall opts f prop args t s).result = .error e)
    ∧ (∀ e, Event.methodE args ∈ (interceptCall opts f prop args t s).trace →
        f args = .error e →
        (interceptCall opts f prop args t s).result = .error e)
    ∧ (∀ hk fresh e, opts.onFetch = some hk →
        Event.fetchHookE (deriveKey opts.pre prop args) fresh
          ∈ (interceptCall opts f prop args t s).trace →
        hk (deriveKey opts.pre prop args) fresh = .error e →
        (interceptCall opts f prop args t s).result = .error e) := by
  refine ⟨fun e herr => ?_, fun hk e hoc hh => ?_, fun e hmem hf => ?_,
    fun hk fresh e hof hmem hh => ?_⟩
  · -- any failing call leaves the store untouched and wrote nothing
    cases hoc : opts.onCache with
    | none =>
      cases hcu : (storeGet t s (deriveKey opts.pre prop args)).isUndef with
      | false =>
        rw [interceptCall_noHook_hit f prop args t s hoc hcu] at herr
        simp at herr
      | true =>
        rw [interceptCall_noHook_miss f prop args t s hoc hcu] at herr ⊢
        rcases finishMiss_error_cases (deriveKey opts.pre prop args) t s _ herr
          with h | ⟨fresh, h⟩ <;> rw [h] <;> exact ⟨rfl, by simp⟩
    | some hk =>
      cases hres : hk (deriveKey opts.pre prop args)
          (storeGet t s (deriveKey opts.pre prop args)) with
      | error e2 =>
        rw [interceptCall_hook_error f prop args t s hoc hres] at herr ⊢
        exact ⟨rfl, by simp⟩
      | ok m =>
        cases hmn : m.isNull with
        | true =>
          rw [isNull_eq hmn] at hres
          rw [interceptCall_hook_null f prop args t s hoc hres] at herr ⊢
          rcases finishMiss_error_cases (deriveKey opts.pre prop args) t s _ herr
            with h | ⟨fresh, h⟩ <;> rw [h] <;> exact ⟨rfl, by simp⟩
        | false =>
          cases hmu : m.isUndef with
          | false =>
            rw [interceptCall_hook_val f prop args t s hoc hres hmn hmu] at herr
            simp at herr
          | true =>
            rw [isUndef_eq hmu] at hres
            cases hcu : (storeGet t s (deriveKey opts.pre prop args)).isUndef with
            | false =>
              rw [interceptCall_hook_undef_hit f prop args t s hoc hres hcu] at herr
              simp at herr
            | true =>
              rw [interceptCall_hook_undef_miss f prop args t s hoc hres hcu] at herr ⊢
              rcases finishMiss_error_cases (deriveKey opts.pre prop args) t s _ herr
                with h | ⟨fresh, h⟩ <;> rw [h] <;> exact ⟨rfl, by simp⟩
  · -- a throwing onCache hook propagates verbatim
    rw [interceptCall_hook_error f prop args t s hoc hh]
  · -- a throwing method propagates verbatim whenever it was invoked
    rcases methodE_mem_structure opts f prop args t s hmem with ⟨tr0, hcall⟩
    rw [hcall, finishMiss_method_error (deriveKey opts.pre prop args) t s tr0 hf]
  · -- a throwing onFetch hook propagates verbatim whenever it was invoked
    rcases fetchHook_mem_structure opts f prop args t s _ _ hmem with ⟨hfa, _, tr0, hcall⟩
    rw [hcall, finishMiss_hook_error (deriveKey opts.pre prop args) t s tr0 hof hfa hh]

/-- Claim C6 witness: the propagation theorem applied to a throwing
`onCache` hook over a populated store — the call fails with the thrown
`"boom"` value and the store is unchanged with no write event. -/
theorem error_propagation_no_write_witness :
    (interceptCall optsThrow fM "m" [] 0 sSt).result = .error (.str "boom")
      ∧ (interceptCall optsThrow fM "m" [] 0 sSt).store = sSt
      ∧ ∀ k v ttlx, Event.setE k v ttlx ∉ (interceptCall optsThrow fM "m" [] 0 sSt).trace := by
  have herr : (interceptCall optsThrow fM "m" [] 0 sSt).result = .error (.str "boom") :=
    (error_propagation_no_write optsThrow fM "m" [] 0 sSt).2.1
      (fun _ _ => .error (.str "boom")) (.str "boom") rfl rfl
  have hfr := (error_propagation_no_write optsThrow fM "m" [] 0 sSt).1 (.str "boom") herr
  exact ⟨herr, hfr.1, hfr.2⟩

/-- With no hooks, a successful call with a non-`undefined` result
leaves the store holding exactly that value under the derived key. -/
theorem noHooks_ok_store {σ : Type} (opts : Options σ)
    (f : List JVal → Except JVal JVal) (prop : String) (args : List JVal)
    (t : Nat) (s0 : Store) (v : JVal)
    (hc : opts.onCache = none) (hf : opts.onFetch = none)
    (h1 : (interceptCall opts f prop args t s0).result = .ok v)
    (hv : v.isUndef = false) :
    ∃ eo, (interceptCall opts f prop args t s0).store (deriveKey opts.pre prop args)
        = some (v, eo) := by
  cases hcu : (storeGet t s0 (deriveKey opts.pre prop args)).isUndef with
  | false =>
    rw [interceptCall_noHook_hit f prop args t s0 hc hcu] at h1 ⊢
    simp at h1
    exact storeGet_eq_some h1 hv
  | true =>
    rw [interceptCall_noHook_miss f prop args t s0 hc hcu] at h1 ⊢
    cases hfa : f args with
    | error e =>
      rw [finishMiss_method_error (deriveKey opts.pre prop args) t s0 _ hfa] at h1
      simp at h1
    | ok fresh =>
      rw [finishMiss_ok_noHook (deriveKey opts.pre prop args) t s0 _ hf hfa] at h1 ⊢
      simp at h1
      subst h1
      exact ⟨_, storeSet_self t (deriveKey opts.pre prop args) fresh opts.ttl s0⟩

/-- Claim C2, counterexample: with no hooks, a method resolving to
`undefined` is re-invoked by the second call with identical arguments,
because the stored `undefined` reads back as the absent marker. -/
theorem second_call_reinvokes_counterexample :
    (interceptCall opts0 f0 "m" [] 0 emptyStore).result = .ok .undefined
      ∧ Event.methodE [] ∈ (interceptCall opts0 f0 "m" [] 0
          (interceptCall opts0 f0 "m" [] 0 emptyStore).store).trace := by
  constructor
  · rfl
  · have h : (interceptCall opts0 f0 "m" [] 0
        (interceptCall opts0 f0 "m" [] 0 emptyStore).store).trace
        = [.getE "m:[]", .methodE [], .setE "m:[]" .undefined none] := rfl
    rw [h]
    exact List.mem_cons_of_mem _ (List.mem_cons_self _ _)

/-- Claim C2 (amended): for every wrapped method and two calls whose
argument lists serialize equally, with no hooks configured, no TTL
elapsed between the calls, and a first call succeeding with a
non-`undefined` result, the second call returns the first call's result
as a pure hit: same value, store unchanged, and no second invocation of
the underlying implementation (its only event is the lookup). -/
theorem second_call_served_from_cache {σ : Type} (opts : Options σ)
    (f : List JVal → Except JVal JVal) (prop : String) (args args2 : List JVal)
    (t1 t2 : Nat) (s0 : Store) (v : JVal)
    (hc : opts.onCache = none) (hf : opts.onFetch = none)
    (hser : stringifyVal (.arr args2) = stringifyVal (.arr args))
    (h1 : (interceptCall opts f prop args t1 s0).result = .ok v)
    (hv : v.isUndef = false)
    (hlive : ∀ w e2, (interceptCall opts f prop args t1 s0).store (deriveKey opts.pre prop args)
        = some (w, some e2) → t2 < e2) :
    interceptCall opts f prop args2 t2 (interceptCall opts f prop args t1 s0).store
      = ⟨.ok v, (interceptCall opts f prop args t1 s0).store,
         [.getE (deriveKey opts.pre prop args2)]⟩ := by
  have hkey : deriveKey opts.pre prop args2 = deriveKey opts.pre prop args := by
    unfold deriveKey
    rw [hser]
  rcases noHooks_ok_store opts f prop args t1 s0 v hc hf h1 hv with ⟨eo, hstore⟩
  have hget : storeGet t2 (interceptCall opts f prop args t1 s0).store
      (deriveKey opts.pre prop args) = v := by
    unfold storeGet
    rw [hstore]
    cases eo with
    | none => rfl
    | some e2 =>
      show (if t2 < e2 then v else JVal.undefined) = v
      rw [if_pos (hlive v e2 hstore)]
  have hcu : (storeGet t2 (interceptCall opts f prop args t1 s0).store
      (deriveKey opts.pre prop args2)).isUndef = false := by
    rw [hkey, hget]
    exact hv
  rw [interceptCall_noHook_hit f prop args2 t2 _ hc hcu, hkey, hget]

/-- Claim C2 witness: the theorem applied to the spec's doubled-value
example — a no-hook wrapper over a method resolving to 10; the second
call returns 10 with only a lookup in its trace. -/
theorem second_call_served_from_cache_witness :
    interceptCall opts0 f10 "m" [] 0 (interceptCall opts0 f10 "m" [] 0 emptyStore).store
      = ⟨.ok (.num 10), (interceptCall opts0 f10 "m" [] 0 emptyStore).store,
         [.getE "m:[]"]⟩ := by
  have hlive : ∀ w e2, (interceptCall opts0 f10 "m" [] 0 emptyStore).store
      (deriveKey opts0.pre "m" []) = some (w, some e2) → (0 : Nat) < e2 := by
    intro w e2 h
    have h2 : (some ((JVal.num 10), (none : Option Nat))
        : Option (JVal × Option Nat)) = some (w, some e2) := h
    simp at h2
  exact second_call_served_from_cache opts0 f10 "m" [] [] 0 0 emptyStore (.num 10)
    rfl rfl rfl rfl rfl hlive

/-- Folding string concatenation over a list factors out the initial
accumulator. -/
theorem stringFoldl_append (l : List String) (a : String) :
    l.foldl (fun r s2 => r ++ s2) a = a ++ l.foldl (fun r s2 => r ++ s2) "" := by
  induction l generalizing a with
  | nil => simp
  | cons x xs ih =>
    simp only [List.foldl]
    have h0 : ("" : String) ++ x = x := rfl
    rw [ih (a ++ x), ih ("" ++ x), h0, String.append_assoc]

/-- Joining a non-empty list of strings prepends its head. -/
theorem stringJoin_cons (x : String) (l : List String) :
    String.join (x :: l) = x ++ String.join l := by
  simp only [String.join, List.foldl]
  have h0 : ("" : String) ++ x = x := rfl
  rw [stringFoldl_append l ("" ++ x), h0]

/-- Claim C8: accessing a property that is a non-null, non-function
object returns a wrapper over that nested object configured with the
same store, ttl and both hooks as the parent and with the parent's
prefix extended by the property name and a dot; the invariant holds at
every depth of recursive descent. -/
theorem nested_wrapper_config {σ : Type} (opts : Options σ)
    (children : List (String × ObjTree)) (prop : String) :
    (∀ cs, children.lookup prop = some (.node cs) →
        getTrap opts children prop = .nested (childOptions opts prop) cs)
    ∧ ((childOptions opts prop).store = opts.store
        ∧ (childOptions opts prop).ttl = opts.ttl
        ∧ (childOptions opts prop).onCache = opts.onCache
        ∧ (childOptions opts prop).onFetch = opts.onFetch
        ∧ (childOptions opts prop).pre = opts.pre ++ prop ++ ".")
    ∧ (∀ path : List String, (descend opts path).store = opts.store
        ∧ (descend opts path).ttl = opts.ttl
        ∧ (descend opts path).onCache = opts.onCache
        ∧ (descend opts path).onFetch = opts.onFetch
        ∧ (descend opts path).pre
            = opts.pre ++ String.join (path.map (fun p => p ++ "."))) := by
  refine ⟨fun cs h => ?_, ⟨rfl, rfl, rfl, rfl, rfl⟩, fun path => ?_⟩
  · simp [getTrap, h]
  · induction path generalizing opts with
    | nil =>
      refine ⟨rfl, rfl, rfl, rfl, ?_⟩
      simp [descend, String.join]
    | cons p ps ih =>
      have hstep : descend opts (p :: ps) = descend (childOptions opts p) ps := rfl
      rcases ih (childOptions opts p) with ⟨h1, h2, h3, h4, h5⟩
      refine ⟨by rw [hstep]; exact h1, by rw [hstep]; exact h2,
        by rw [hstep]; exact h3, by rw [hstep]; exact h4, ?_⟩
      rw [hstep, h5]
      show opts.pre ++ p ++ "." ++ String.join (ps.map (fun q => q ++ "."))
        = opts.pre ++ String.join (((p :: ps).map (fun q => q ++ ".")))
      rw [List.map_cons, stringJoin_cons, ← String.append_assoc, ← String.append_assoc]

/-- Claim C8 witness: the invariant applied to the spec's example
object — accessing `api` under prefix `"app:"` yields the nested
wrapper with prefix `"app:api."` and the parent's store/ttl/hooks. -/
theorem nested_wrapper_config_witness :
    getTrap optsApp treeEx "api"
      = .nested (childOptions optsApp "api")
          [("getData", ObjTree.method (fun _ => .ok (.str "data")))] :=
  (nested_wrapper_config optsApp treeEx "api").1
    [("getData", ObjTree.method (fun _ => .ok (.str "data")))] rfl

/-- With the name already bound in the global map, a whole sequence of
calls never invokes a producer. -/
theorem callSeq_present {α : Type} (name : String) (cs : List (Unit → α))
    (g : List (String × α)) (v : α) (h : g.lookup name = some v) :
    (callSeq name cs g).2 = 0 := by
  induction cs with
  | nil => simp [callSeq]
  | cons c rest ih =>
    simp only [callSeq, globalThisCached, h]
    simpa using ih

/-- Claim C9: the process-wide memoization utility invokes the producer
at most once per name — a first call with an unbound name computes,
stores and returns the producer's result; any call with a bound name
returns the stored value without invoking its producer; and across any
sequence of calls sharing one name, at most one producer invocation
ever happens. -/
theorem globalThisCached_memoizes {α : Type} (name : String)
    (c c2 : Unit → α) (g : List (String × α)) (v : α) :
    (g.lookup name = none →
        globalThisCached name c g = (c (), (name, c ()) :: g, true))
    ∧ (g.lookup name = some v →
        globalThisCached name c2 g = (v, g, false))
    ∧ (∀ cs : List (Unit → α), (callSeq name cs g).2 ≤ 1) := by
  refine ⟨fun h => ?_, fun h => ?_, fun cs => ?_⟩
  · simp [globalThisCached, h]
  · simp [globalThisCached, h]
  · cases hl : g.lookup name with
    | some w =>
      rw [callSeq_present name cs g w hl]
      exact Nat.zero_le 1
    | none =>
      cases cs with
      | nil => simp [callSeq]
      | cons c3 rest =>
        simp only [callSeq, globalThisCached, hl]
        have hpres : ((name, c3 ()) :: g).lookup name = some (c3 ()) := by
          simp [List.lookup]
        rw [callSeq_present name rest _ _ hpres]
        simp

/-- Claim C9 witness: the memoization theorem applied concretely — the
first call with an empty global map computes and stores 42; a later
call with a different producer returns the stored 42 uninvoked. -/
theorem globalThisCached_memoizes_witness :
    globalThisCached "keyv" (fun _ => (42 : Nat)) [] = (42, [("keyv", 42)], true)
      ∧ globalThisCached "keyv" (fun _ => (7 : Nat)) [("keyv", 42)] = (42, [("keyv", 42)], false) := by
  constructor
  · exact (globalThisCached_memoizes "keyv" (fun _ => (42 : Nat))
      (fun _ => (7 : Nat)) [] 42).1 rfl
  · exact (globalThisCached_memoizes "keyv" (fun _ => (42 : Nat))
      (fun _ => (7 : Nat)) [("keyv", 42)] 42).2.1 rfl

/-- A miss tail that resolves to `undefined` wrote `undefined` under
its key. -/
theorem finishMiss_ok_undef_store {σ : Type} (opts : Options σ)
    (f : List JVal → Except JVal JVal) (key : String) (args : List JVal)
    (t : Nat) (s : Store) (tr : List Event)
    (h1 : (finishMiss opts f key args t s tr).result = .ok .undefined) :
    ∃ eo, (finishMiss opts f key args t s tr).store key = some (.undefined, eo) := by
  cases hfa : f args with
  | error e =>
    rw [finishMiss_method_error key t s tr hfa] at h1
    simp at h1
  | ok fresh =>
    cases hof : opts.onFetch with
    | none =>
      rw [finishMiss_ok_noHook key t s tr hof hfa] at h1 ⊢
      simp at h1
      subst h1
      exact ⟨_, storeSet_self t key _ opts.ttl s⟩
    | some hk2 =>
      cases hres : hk2 key fresh with
      | error e =>
        rw [finishMiss_hook_error key t s tr hof hfa hres] at h1
        simp at h1
      | ok m =>
        rw [finishMiss_hook_ok key t s tr hof hfa hres] at h1 ⊢
        simp only at h1 ⊢
        have h2 : (if m.isUndef then fresh else m) = JVal.undefined := by
          have := h1
          simpa using this
        rw [h2]
        exact ⟨_, storeSet_self t key _ opts.ttl s⟩

/-- A call that resolves to `undefined` leaves `undefined` recorded in
the store under its derived key (any configuration). -/
theorem ok_undef_store {σ : Type} (opts : Options σ)
    (f : List JVal → Except JVal JVal) (prop : String) (args : List JVal)
    (t : Nat) (s : Store)
    (h1 : (interceptCall opts f prop args t s).result = .ok .undefined) :
    ∃ eo, (interceptCall opts f prop args t s).store (deriveKey opts.pre prop args)
        = some (.undefined, eo) := by
  cases hoc : opts.onCache with
  | none =>
    cases hcu : (storeGet t s (deriveKey opts.pre prop args)).isUndef with
    | false =>
      rw [interceptCall_noHook_hit f prop args t s hoc hcu] at h1
      simp at h1
      rw [h1] at hcu
      simp at hcu
    | true =>
      rw [interceptCall_noHook_miss f prop args t s hoc hcu] at h1 ⊢
      exact finishMiss_ok_undef_store opts f _ args t s _ h1
  | some hk =>
    cases hres : hk (deriveKey opts.pre prop args)
        (storeGet t s (deriveKey opts.pre prop args)) with
    | error e =>
      rw [interceptCall_hook_error f prop args t s hoc hres] at h1
      simp at h1
    | ok m =>
      cases hmn : m.isNull with
      | true =>
        rw [isNull_eq hmn] at hres
        rw [interceptCall_hook_null f prop args t s hoc hres] at h1 ⊢
        exact finishMiss_ok_undef_store opts f _ args t s _ h1
      | false =>
        cases hmu : m.isUndef with
        | false =>
          rw [interceptCall_hook_val f prop args t s hoc hres hmn hmu] at h1
          simp at h1
          rw [h1] at hmu
          simp at hmu
        | true =>
          rw [isUndef_eq hmu] at hres
          cases hcu : (storeGet t s (deriveKey opts.pre prop args)).isUndef with
          | false =>
            rw [interceptCall_hook_undef_hit f prop args t s hoc hres hcu] at h1
            simp at h1
            rw [h1] at hcu
            simp at hcu
          | true =>
            rw [interceptCall_hook_undef_miss f prop args t s hoc hres hcu] at h1 ⊢
            exact finishMiss_ok_undef_store opts f _ args t s _ h1

/-- Claim C10: a wrapped method whose (possibly hook-transformed)
result is `undefined` is never served from the cache: after such a
call, the lookup for its key reports the absent marker at every later
time, and a subsequent same-key call (no hooks) is again a miss that
re-invokes the underlying method and writes the store again. -/
theorem undefined_result_never_cached {σ : Type} (opts : Options σ)
    (f : List JVal → Except JVal JVal) (prop : String) (args : List JVal)
    (t : Nat) (s : Store)
    (h1 : (interceptCall opts f prop args t s).result = .ok .undefined) :
    (∀ t2, storeGet t2 (interceptCall opts f prop args t s).store
        (deriveKey opts.pre prop args) = .undefined)
    ∧ (∀ args2 t2 w, opts.onCache = none → opts.onFetch = none →
        stringifyVal (.arr args2) = stringifyVal (.arr args) →
        f args2 = .ok w →
        interceptCall opts f prop args2 t2 (interceptCall opts f prop args t s).store
          = ⟨.ok w,
             storeSet t2 (deriveKey opts.pre prop args2) w opts.ttl
               (interceptCall opts f prop args t s).store,
             [.getE (deriveKey opts.pre prop args2), .methodE args2,
              .setE (deriveKey opts.pre prop args2) w opts.ttl]⟩) := by
  rcases ok_undef_store opts f prop args t s h1 with ⟨eo, hstore⟩
  have habs : ∀ t2, storeGet t2 (interceptCall opts f prop args t s).store
      (deriveKey opts.pre prop args) = .undefined := storeGet_of_undefined hstore
  refine ⟨habs, fun args2 t2 w hc hf hser hfa => ?_⟩
  have hkey : deriveKey opts.pre prop args2 = deriveKey opts.pre prop args := by
    unfold deriveKey
    rw [hser]
  have hcu : (storeGet t2 (interceptCall opts f prop args t s).store
      (deriveKey opts.pre prop args2)).isUndef = true := by
    rw [hkey, habs t2]
    rfl
  rw [interceptCall_noHook_miss f prop args2 t2 _ hc hcu,
    finishMiss_ok_noHook (deriveKey opts.pre prop args2) t2 _ _ hf hfa]
  rfl

/-- Claim C10 witness: the theorem applied to a no-hook wrapper over a
method resolving to `undefined` — the stored entry reads back as absent
at a later time, and the repeat call re-invokes and re-writes. -/
theorem undefined_result_never_cached_witness :
    storeGet 5 (interceptCall opts0 f0 "m" [] 0 emptyStore).store "m:[]" = .undefined
      ∧ interceptCall opts0 f0 "m" [] 0 (interceptCall opts0 f0 "m" [] 0 emptyStore).store
          = ⟨.ok .undefined,
             storeSet 0 "m:[]" .undefined none (interceptCall opts0 f0 "m" [] 0 emptyStore).store,
             [.getE "m:[]", .methodE [], .setE "m:[]" .undefined none]⟩ := by
  constructor
  · exact (undefined_result_never_cached opts0 f0 "m" [] 0 emptyStore rfl).1 5
  · exact (undefined_result_never_cached opts0 f0 "m" [] 0 emptyStore rfl).2
      [] 0 .undefined rfl rfl rfl rfl
